import Mathlib

/-!
Shallow embedding of the JobCook AI-orchestration core (TypeScript sources
`services/geminiService.ts`, `components/RecipeBook.tsx`,
`components/TasteTest.tsx`, `App.tsx`, `types.ts`) and proofs about it.

Where the repository contains two historical versions of a module, the later
version (the one consistent with `types.ts` — `project` category, interview
history, `TASTE_TEST` mode) is the one embedded.
-/

namespace JobCook

/-! ## JavaScript value model

TypeScript erases its types at runtime; the error objects inspected by
`withRetry` carry fields that may be numbers or strings, and `||`-chains
select the first *truthy* value.  `JsVal` models such a field value. -/

inductive JsVal where
  | num (n : Int)
  | str (s : String)
deriving DecidableEq, Repr

/-- JavaScript truthiness of a field value (`0` and `""` are falsy). -/
def JsVal.truthy : JsVal → Bool
  | .num n => n != 0
  | .str s => s != ""

/-- `a || b` on possibly-absent field values: `undefined`, `0` and `""` fall
through to `b`. -/
def jsOr (a b : Option JsVal) : Option JsVal :=
  match a with
  | some v => if v.truthy then some v else b
  | none => b

/-- `a || b` where `a` is a possibly-absent string and `b` a string
(`undefined` and `""` fall through). -/
def strOr (a : Option String) (b : String) : String :=
  match a with
  | some s => if s != "" then s else b
  | none => b

/-- `hay` starts with `pat` (character lists). -/
def startsWithList : List Char → List Char → Bool
  | _, [] => true
  | [], _ :: _ => false
  | h :: hs, p :: ps => h == p && startsWithList hs ps

/-- `String.prototype.includes`: `pat` occurs as a contiguous substring. -/
def includesList : List Char → List Char → Bool
  | [], pat => pat.isEmpty
  | h :: hs, pat => startsWithList (h :: hs) pat || includesList hs pat

/-- `hay.includes(pat)` on strings. -/
def strIncludes (hay pat : String) : Bool :=
  includesList hay.data pat.data

example : strIncludes "Gemini overloaded today" "overloaded" = true := by decide
example : strIncludes "Gemini overload" "overloaded" = false := by decide
example : strIncludes "x" "" = true := by decide

/-! ## The retry envelope (`withRetry`, geminiService.ts)

`withRetry` catches an arbitrary thrown error object and sniffs several
possible shapes.  `JsErr` models the fields it reads; `stringified` stands
for `JSON.stringify(error)`, the last-resort message. -/

structure JsErr where
  /-- `error.status` -/
  status : Option JsVal
  /-- `error.code` -/
  code : Option JsVal
  /-- `error.error?.code` -/
  nestedCode : Option JsVal
  /-- `error.error?.status` -/
  nestedStatus : Option JsVal
  /-- `error.response?.status` -/
  responseStatus : Option JsVal
  /-- `error.message` -/
  message : Option String
  /-- `error.error?.message` -/
  nestedMessage : Option String
  /-- `JSON.stringify(error)`, carried as data since the embedding does not
  re-serialize arbitrary objects. -/
  stringified : String
deriving DecidableEq, Repr

/-- `error?.status || error?.code || error?.error?.code || error?.response?.status` -/
def JsErr.errorCode (e : JsErr) : Option JsVal :=
  jsOr e.status (jsOr e.code (jsOr e.nestedCode e.responseStatus))

/-- `error?.message || error?.error?.message || JSON.stringify(error)` -/
def JsErr.errorMessage (e : JsErr) : String :=
  strOr e.message (strOr e.nestedMessage e.stringified)

/-- `error?.status || error?.error?.status` -/
def JsErr.errorStatus (e : JsErr) : Option JsVal :=
  jsOr e.status e.nestedStatus

/-- `errorMessage.includes('API key') || errorCode === 400 || errorCode === 403` -/
def JsErr.isAuthError (e : JsErr) : Bool :=
  strIncludes e.errorMessage "API key"
    || e.errorCode == some (.num 400) || e.errorCode == some (.num 403)

/-- The `isOverloaded` classification of `withRetry`.  (The
`typeof errorMessage === 'string'` guard is vacuous here: `errorMessage` is
always a string in this model, as it is in the source where every message
field is a string.) -/
def JsErr.isOverloaded (e : JsErr) : Bool :=
  e.errorCode == some (.num 503)
    || e.errorCode == some (.str "UNAVAILABLE")
    || e.errorStatus == some (.str "UNAVAILABLE")
    || strIncludes e.errorMessage "overloaded"
    || strIncludes e.errorMessage "503"

def apiKeyErrorMessage : String :=
  "Invalid or missing API Key. Please check your configuration."

def safetyErrorMessage : String :=
  "The request was blocked by safety filters. Please adjust the content."

def genericErrorMessage : String :=
  "The kitchen is experiencing technical difficulties. Please try again."

/-- The message thrown when an error is neither retried nor auth-classified:
`SAFETY` substring, else verbatim when short (< 100 chars), else generic. -/
def JsErr.finalMessage (e : JsErr) : String :=
  if strIncludes e.errorMessage "SAFETY" then safetyErrorMessage
  else if e.errorMessage.length < 100 then e.errorMessage
  else genericErrorMessage

/-- One invocation of the wrapped operation: the `i`-th call either resolves
with a value or rejects with an error object. -/
def Behavior (α : Type) := Nat → Except JsErr α

/-- `withRetry` (geminiService.ts): `attempt` indexes the invocation of
`operation`, `retries` and `delay` are the recursion arguments (defaults 5
and 3000).  Returns the settled outcome — success value or thrown message —
together with the list of backoff delays issued (ms, exact rationals since
`delay * 1.5` leaves the integers at the fifth retry). -/
def withRetryAux {α : Type} (behavior : Behavior α) :
    Nat → Nat → ℚ → Except String α × List ℚ
  | attempt, 0, _delay =>
    -- `retries > 0 && isOverloaded` is false: fall through to the final throw.
    (match behavior attempt with
     | .ok v => (.ok v, [])
     | .error e =>
       if e.isAuthError then (.error apiKeyErrorMessage, [])
       else (.error e.finalMessage, []))
  | attempt, r + 1, delay =>
    match behavior attempt with
    | .ok v => (.ok v, [])
    | .error e =>
      if e.isAuthError then (.error apiKeyErrorMessage, [])
      else if e.isOverloaded then
        let rest := withRetryAux behavior (attempt + 1) r (delay * (3 / 2))
        (rest.1, delay :: rest.2)
      else (.error e.finalMessage, [])

/-- `withRetry(operation)` with the default arguments `retries = 5`,
`delay = 3000`. -/
def withRetry {α : Type} (behavior : Behavior α) : Except String α × List ℚ :=
  withRetryAux behavior 0 5 3000

/-- A bare 503 rejection with a short non-indicative message. -/
def err503 : JsErr :=
  ⟨some (.num 503), none, none, none, none, some "Service busy right now.", none, "{}"⟩

example : err503.isAuthError = false := by decide
example : err503.isOverloaded = true := by decide

/-- An error with the same message as `err503` but no Overloaded indicator at
all: classified as an ordinary, non-retried failure. -/
def errOther : JsErr :=
  ⟨none, none, none, none, none, some "Service busy right now.", none, "{}"⟩

example : errOther.isAuthError = false := by decide
example : errOther.isOverloaded = false := by decide

/-- Unfolding step of `withRetryAux`: successful invocation. -/
theorem withRetryAux_ok {α : Type} (behavior : Behavior α) (attempt retries : Nat)
    (delay : ℚ) (v : α) (hb : behavior attempt = .ok v) :
    withRetryAux behavior attempt retries delay = (.ok v, []) := by
  cases retries <;> simp only [withRetryAux, hb]

/-- Unfolding step of `withRetryAux`: an overloaded, non-auth failure with
retry budget left issues the current delay and recurses with budget − 1 and
delay × 1.5. -/
theorem withRetryAux_retry {α : Type} (behavior : Behavior α) (attempt r : Nat)
    (delay : ℚ) (e : JsErr) (hb : behavior attempt = .error e)
    (ha : e.isAuthError = false) (ho : e.isOverloaded = true) :
    withRetryAux behavior attempt (r + 1) delay =
      ((withRetryAux behavior (attempt + 1) r (delay * (3 / 2))).1,
        delay :: (withRetryAux behavior (attempt + 1) r (delay * (3 / 2))).2) := by
  simp only [withRetryAux, hb, ha, ho]
  simp

/-- Unfolding step of `withRetryAux`: an overloaded, non-auth failure with
budget 0 falls through to the ordinary final-message normalization. -/
theorem withRetryAux_exhausted {α : Type} (behavior : Behavior α) (attempt : Nat)
    (delay : ℚ) (e : JsErr) (hb : behavior attempt = .error e)
    (ha : e.isAuthError = false) (_ho : e.isOverloaded = true) :
    withRetryAux behavior attempt 0 delay = (.error e.finalMessage, []) := by
  simp only [withRetryAux, hb, ha]
  simp

/-- **C3.** For every zero-argument operation that fails with a 503/Overloaded
error on its first four invocations and succeeds on the fifth, `withRetry`
under the default configuration returns that success, and the delays issued
between attempts are exactly 3000, 4500, 6750, 10125 ms (each retry
multiplying the previous delay by 1.5, starting at 3000 ms). -/
theorem claim3_retry_four_503_then_success {α : Type} (behavior : Behavior α) (v : α)
    (hfail : ∀ i, i < 4 →
      ∃ e, behavior i = .error e ∧ e.isAuthError = false ∧ e.isOverloaded = true)
    (hok : behavior 4 = .ok v) :
    withRetry behavior = (.ok v, [3000, 4500, 6750, 10125]) := by
  obtain ⟨e0, hb0, ha0, ho0⟩ := hfail 0 (by norm_num)
  obtain ⟨e1, hb1, ha1, ho1⟩ := hfail 1 (by norm_num)
  obtain ⟨e2, hb2, ha2, ho2⟩ := hfail 2 (by norm_num)
  obtain ⟨e3, hb3, ha3, ho3⟩ := hfail 3 (by norm_num)
  unfold withRetry
  rw [withRetryAux_retry behavior 0 4 3000 e0 hb0 ha0 ho0,
      withRetryAux_retry behavior 1 3 _ e1 hb1 ha1 ho1,
      withRetryAux_retry behavior 2 2 _ e2 hb2 ha2 ho2,
      withRetryAux_retry behavior 3 1 _ e3 hb3 ha3 ho3,
      withRetryAux_ok behavior (3 + 1) 1 _ v hok]
  simp only [Prod.mk.injEq, List.cons.injEq, and_true, true_and]
  norm_num

/-- A concrete operation for C3: four 503 rejections, then success. -/
def fourFailuresThenOk : Behavior Unit :=
  fun i => if i < 4 then .error err503 else .ok ()

/-- Witness for C3 at a concrete operation. -/
theorem claim3_witness :
    withRetry fourFailuresThenOk = (.ok (), [3000, 4500, 6750, 10125]) :=
  claim3_retry_four_503_then_success fourFailuresThenOk ()
    (fun i hi => ⟨err503, by simp [fourFailuresThenOk, hi], by decide, by decide⟩)
    rfl

/-- **C4, counterexample.** The claim says exhausting the retry budget while
still Overloaded surfaces a *distinct* exhausted-retry failure, not an
ordinary non-retry error.  In fact the exhausted run settles with exactly the
same ordinary normalized error value (`Except.error "Service busy right
now."`) that the very same message produces on a non-retried Other-classified
failure — there is no distinct RetryExhausted failure. -/
theorem claim4_counterexample :
    (withRetry (fun _ => (.error err503 : Except JsErr Unit))).1 =
        .error "Service busy right now." ∧
      (withRetry (fun _ => (.error errOther : Except JsErr Unit))).1 =
        .error "Service busy right now." ∧
      (withRetry (fun _ => (.error err503 : Except JsErr Unit))).1 =
        (withRetry (fun _ => (.error errOther : Except JsErr Unit))).1 :=
  ⟨rfl, rfl, rfl⟩

/-- **C4, amended.** For every operation failing with an Overloaded-classified
(non-auth) error on every attempt, `withRetry` under default configuration
consumes the budget of 5 retries (delays 3000, 4500, 6750, 10125, 15187.5 ms)
and then fails — it does not return success — but the failure is the ordinary
normalized error of the last attempt's error object (`finalMessage`: message
verbatim when shorter than 100 characters, else the generic message), not a
distinct RetryExhausted failure. -/
theorem claim4_retry_exhausted_ordinary_error {α : Type} (behavior : Behavior α)
    (e : Nat → JsErr)
    (hfail : ∀ i, i ≤ 5 → behavior i = .error (e i))
    (ha : ∀ i, i ≤ 5 → (e i).isAuthError = false)
    (ho : ∀ i, i ≤ 5 → (e i).isOverloaded = true) :
    withRetry behavior =
      (.error (e 5).finalMessage, [3000, 4500, 6750, 10125, 30375 / 2]) := by
  unfold withRetry
  rw [withRetryAux_retry behavior 0 4 3000 (e 0) (hfail 0 (by norm_num))
        (ha 0 (by norm_num)) (ho 0 (by norm_num)),
      withRetryAux_retry behavior 1 3 _ (e 1) (hfail 1 (by norm_num))
        (ha 1 (by norm_num)) (ho 1 (by norm_num)),
      withRetryAux_retry behavior 2 2 _ (e 2) (hfail 2 (by norm_num))
        (ha 2 (by norm_num)) (ho 2 (by norm_num)),
      withRetryAux_retry behavior 3 1 _ (e 3) (hfail 3 (by norm_num))
        (ha 3 (by norm_num)) (ho 3 (by norm_num)),
      withRetryAux_retry behavior 4 0 _ (e 4) (hfail 4 (by norm_num))
        (ha 4 (by norm_num)) (ho 4 (by norm_num)),
      withRetryAux_exhausted behavior 5 _ (e 5) (hfail 5 (by norm_num))
        (ha 5 (by norm_num)) (ho 5 (by norm_num))]
  simp only [Prod.mk.injEq, List.cons.injEq, and_true, true_and]
  norm_num

/-- Witness for the amended C4 at a concrete always-503 operation. -/
theorem claim4_witness :
    withRetry (fun _ => (.error err503 : Except JsErr Unit)) =
      (.error err503.finalMessage, [3000, 4500, 6750, 10125, 30375 / 2]) :=
  claim4_retry_exhausted_ordinary_error (fun _ => .error err503) (fun _ => err503)
    (fun _ _ => rfl)
    (by intro i hi; show err503.isAuthError = false; decide)
    (by intro i hi; show err503.isOverloaded = true; decide)

/-! ## Domain data model (`types.ts`)

TypeScript union-typed string fields are erased at runtime; `category` is
modelled as a `String` with the closed enum as a membership predicate, which
is what the decoders actually manipulate. -/

/-- `Ingredient` (types.ts).  `details?` is an optional field. -/
structure Ingredient where
  id : String
  name : String
  category : String
  details : Option String
deriving DecidableEq, Repr

/-- The closed category enum of `types.ts`
(`'skill' | 'experience' | 'education' | 'certification' | 'project'`). -/
def categoryEnum : List String :=
  ["skill", "experience", "education", "certification", "project"]

/-- `DishAnalysis` (types.ts) — the MatchAnalysis of the spec. -/
structure DishAnalysis where
  matchScore : ℚ
  missingIngredients : List String
  tasteProfile : String
  chefTips : List String
  companyName : String
deriving DecidableEq, Repr

/-- `CompanyResearchResult` (types.ts). -/
structure CompanyResearchResult where
  summary : String
  sources : List (String × String)
deriving DecidableEq, Repr

/-- A toast notification `{ kind, message }` (types.ts `ToastMessage` without
the collaborator-side id). -/
inductive ToastKind where
  | success
  | error
  | info
deriving DecidableEq, Repr

structure Toast where
  kind : ToastKind
  message : String
deriving DecidableEq, Repr

def Toast.isSuccess (t : Toast) : Bool := t.kind == .success
def Toast.isError (t : Toast) : Bool := t.kind == .error

/-! ## Match analysis orchestration (`handleAnalyze`, RecipeBook.tsx)

`handleAnalyze` is embedded as a pure function of the component state and the
outcomes of the two backend workflows it may invoke (`analyzeDish`, then
conditionally `researchCompany`).  It returns the final component state, the
toasts shown, and the list of company-research calls issued (each recorded
with its `companyName` and `ingredients` arguments). -/

/-- The slice of `ChefState` that `handleAnalyze` reads and writes. -/
structure RState where
  ingredients : List Ingredient
  currentRecipe : String
  companyName : String
  analysis : Option DishAnalysis
  companyResearch : Option CompanyResearchResult
  isCooking : Bool
deriving DecidableEq, Repr

/-- `handleAnalyze` (RecipeBook.tsx).  `analyzeRes` is the settled outcome of
`analyzeDish` and `researchRes` the outcome `researchCompany` *would* settle
with if called; the third component of the result lists the research calls
actually issued.  A thrown error is modelled by its message string (the
single `catch` reads `e.message`, with a fallback when it is falsy). -/
def handleAnalyze (st : RState) (analyzeRes : Except String DishAnalysis)
    (researchRes : Except String CompanyResearchResult) :
    RState × List Toast × List (String × List Ingredient) :=
  if st.currentRecipe == "" || st.ingredients.isEmpty then (st, [], [])
  else
    let st0 := { st with isCooking := true }
    let toasts0 := [Toast.mk .info "The chef is analyzing your recipe..."]
    match analyzeRes with
    | .error msg =>
      ({ st0 with isCooking := false },
        toasts0 ++ [Toast.mk .error (strOr (some msg) "Failed to analyze the recipe.")],
        [])
    | .ok analysis =>
      if analysis.companyName != "" && analysis.companyName != "Unknown Company" then
        -- company name is stored before the research call is awaited
        let st1 := { st0 with companyName := analysis.companyName }
        match researchRes with
        | .error msg =>
          ({ st1 with isCooking := false },
            toasts0 ++ [Toast.mk .error (strOr (some msg) "Failed to analyze the recipe.")],
            [(analysis.companyName, st.ingredients)])
        | .ok research =>
          ({ st1 with
              analysis := some analysis
              companyResearch := some research
              companyName := analysis.companyName
              isCooking := false },
            toasts0 ++ [Toast.mk .success "Analysis complete! Order up!"],
            [(analysis.companyName, st.ingredients)])
      else
        ({ st0 with
            analysis := some analysis
            companyResearch := none
            companyName := analysis.companyName
            isCooking := false },
          toasts0 ++ [Toast.mk .success "Analysis complete! Order up!"],
          [])

/-- **C1.** For every match-analysis run whose analysis call succeeds (under
the button's precondition that a job description and at least one ingredient
are present), a company-research call is issued if and only if the extracted
company name is non-empty and not the sentinel `"Unknown Company"`; when
issued, it is exactly one call carrying that extracted name and the same
Ingredient context; otherwise no research call is issued. -/
theorem claim1_research_iff_company_name (st : RState) (a : DishAnalysis)
    (researchRes : Except String CompanyResearchResult)
    (hrecipe : st.currentRecipe ≠ "") (hingr : st.ingredients ≠ []) :
    (handleAnalyze st (.ok a) researchRes).2.2 =
      if a.companyName ≠ "" ∧ a.companyName ≠ "Unknown Company" then
        [(a.companyName, st.ingredients)]
      else [] := by
  unfold handleAnalyze
  simp only [List.isEmpty_iff, hrecipe, hingr, bne_iff_ne, ne_eq, decide_not]
  by_cases h1 : a.companyName = ""
  · simp [hrecipe, hingr, h1]
  · by_cases h2 : a.companyName = "Unknown Company"
    · simp [hrecipe, hingr, h1, h2]
    · cases researchRes <;> simp [hrecipe, hingr, h1, h2]

/-- Witness for C1 at a concrete state and analysis result. -/
theorem claim1_witness :
    (handleAnalyze
        ⟨[⟨"1", "Python", "skill", some ""⟩], "Some job", "", none, none, false⟩
        (.ok ⟨80, [], "fits", [], "Acme Corp"⟩)
        (.ok ⟨"summary", []⟩)).2.2 =
      if ("Acme Corp" : String) ≠ "" ∧ ("Acme Corp" : String) ≠ "Unknown Company" then
        [("Acme Corp", [⟨"1", "Python", "skill", some ""⟩])]
      else [] :=
  claim1_research_iff_company_name
    ⟨[⟨"1", "Python", "skill", some ""⟩], "Some job", "", none, none, false⟩
    ⟨80, [], "fits", [], "Acme Corp"⟩ (.ok ⟨"summary", []⟩)
    (by decide) (by decide)

/-- A concrete pre-run state for the C2 counterexample. -/
def c2State : RState :=
  ⟨[⟨"1", "Python", "skill", some ""⟩], "Some job", "", none, none, false⟩

/-- **C2, counterexample.** The claim says that when the analysis call
succeeds and the subsequent company-research call fails, the successful
MatchAnalysis is still recorded and reported as success, with the research
failure a separate non-blocking notification.  In fact both calls sit in one
`try`: at this concrete run (successful analysis naming `"Acme Corp"`,
research rejecting with `"Network error"`) the final state's `analysis` field
is still `none` — the successful analysis is discarded — and the toasts are
the initial info toast plus a single error toast; no success notification is
shown. -/
theorem claim2_counterexample :
    (handleAnalyze c2State (.ok ⟨80, [], "fits", [], "Acme Corp"⟩)
        (.error "Network error")).1.analysis = none ∧
      (handleAnalyze c2State (.ok ⟨80, [], "fits", [], "Acme Corp"⟩)
          (.error "Network error")).2.1 =
        [Toast.mk .info "The chef is analyzing your recipe...",
          Toast.mk .error "Network error"] :=
  ⟨rfl, rfl⟩

/-- **C2, amended.** For every match-analysis run (under the button's
precondition) in which the analysis call succeeds with an eligible company
name and the company-research call fails, the whole run is caught by the
single error handler: the successful `DishAnalysis` is *not* recorded
(`analysis` keeps its previous value) and no success notification is shown —
the only notifications are the initial info toast and one error toast
carrying the research failure's message; only the extracted company name and
the cleared loading flag survive in the state. -/
theorem claim2_research_failure_discards_analysis (st : RState) (a : DishAnalysis)
    (msg : String) (hrecipe : st.currentRecipe ≠ "") (hingr : st.ingredients ≠ [])
    (hname : a.companyName ≠ "" ∧ a.companyName ≠ "Unknown Company") :
    (handleAnalyze st (.ok a) (.error msg)).1 =
        { st with companyName := a.companyName, isCooking := false } ∧
      (handleAnalyze st (.ok a) (.error msg)).2.1 =
        [Toast.mk .info "The chef is analyzing your recipe...",
          Toast.mk .error (strOr (some msg) "Failed to analyze the recipe.")] := by
  unfold handleAnalyze
  simp [List.isEmpty_iff, hrecipe, hingr, hname.1, hname.2]

/-- Witness for the amended C2 at a concrete run. -/
theorem claim2_witness :
    (handleAnalyze c2State (.ok ⟨70, [], "ok", [], "Acme Corp"⟩)
          (.error "boom")).1 =
        { c2State with companyName := "Acme Corp", isCooking := false } ∧
      (handleAnalyze c2State (.ok ⟨70, [], "ok", [], "Acme Corp"⟩)
          (.error "boom")).2.1 =
        [Toast.mk .info "The chef is analyzing your recipe...",
          Toast.mk .error (strOr (some "boom") "Failed to analyze the recipe.")] :=
  claim2_research_failure_discards_analysis c2State ⟨70, [], "ok", [], "Acme Corp"⟩
    "boom" (by decide) (by decide) ⟨by decide, by decide⟩

/-! ## Resume-parsing decoder (`parseResume`, geminiService.ts)

The decoder receives the `JSON.parse` outcome of the response text (an array
of objects with possibly-absent fields) and normalizes each record. -/

/-- `JS toLowerCase` (ASCII case folding, as applied to category strings). -/
def strToLower (s : String) : String := String.mk (s.data.map Char.toLower)

/-- One raw record of the parsed resume array: `{ name?, category?, details? }`. -/
structure RawIngredient where
  name : Option String
  category : Option String
  details : Option String
deriving DecidableEq, Repr

/-- The local `validCategories` array of `parseResume`. -/
def validCategories : List String :=
  ["skill", "experience", "education", "certification", "project"]

theorem validCategories_eq_categoryEnum : validCategories = categoryEnum := rfl

/-- The category normalization of `parseResume`:
`i.category ? i.category.toLowerCase() : 'skill'`, then the keyword fallback
chain when the lowercased value is not in `validCategories`. -/
def normalizeCategory (raw : Option String) : String :=
  let category :=
    match raw with
    | some c => if c != "" then strToLower c else "skill"
    | none => "skill"
  if validCategories.contains category then category
  else if strIncludes category "work" || strIncludes category "intern" then "experience"
  else if strIncludes category "school" || strIncludes category "degree" then "education"
  else if strIncludes category "project" then "project"
  else "skill"

/-- The per-record mapping of `parseResume`: `name || 'Unknown'`, normalized
category, `details || ''`, and a locally generated id (`fresh`, standing for
`Date.now().toString() + Math.random()...`, never taken from the input). -/
def decodeResumeIngredient (fresh : String) (r : RawIngredient) : Ingredient :=
  ⟨fresh, strOr r.name "Unknown", normalizeCategory r.category, some (strOr r.details "")⟩

/-- The decode tail of `parseResume`: empty text is an empty list (a valid
outcome), a JSON parse failure throws, and otherwise each raw record is
mapped through `decodeResumeIngredient` with a locally generated id. -/
def parseResumeDecode (text : String) (parsed : Option (List RawIngredient))
    (ids : Nat → String) : Except String (List Ingredient) :=
  if text == "" then .ok []
  else
    match parsed with
    | none => .error "Failed to read the chef's handwriting (JSON Parse Error)."
    | some raws => .ok (List.mapIdx (fun i r => decodeResumeIngredient (ids i) r) raws)

/-- **C5.** Every Ingredient decoded from a resume-parsing response has a
category in the closed enum; and when the reported category string — after
the decoder's case normalization (spec §4.3: category fields are
case-normalized before validation) — is outside the closed enum, the decoded
category follows the keyword rule: containing "intern" or "work" gives
`experience`, else "school"/"degree" gives `education`, else "project" gives
`project`, else `skill`. -/
theorem claim5_category_normalization (fresh : String) (r : RawIngredient) :
    (decodeResumeIngredient fresh r).category ∈ categoryEnum ∧
      (∀ c, r.category = some c → strToLower c ∉ validCategories →
        (decodeResumeIngredient fresh r).category =
          if strIncludes (strToLower c) "intern" || strIncludes (strToLower c) "work" then
            "experience"
          else if strIncludes (strToLower c) "school"
              || strIncludes (strToLower c) "degree" then "education"
          else if strIncludes (strToLower c) "project" then "project"
          else "skill") := by
  constructor
  · show normalizeCategory r.category ∈ categoryEnum
    unfold normalizeCategory
    set category :=
      match r.category with
      | some c => if c != "" then strToLower c else "skill"
      | none => "skill" with hcat
    by_cases h : validCategories.contains category = true
    · rw [if_pos h, ← validCategories_eq_categoryEnum]
      simpa using h
    · rw [if_neg h]
      split_ifs <;> decide
  · intro c hc hnot
    show normalizeCategory r.category = _
    rw [hc]
    by_cases hce : c = ""
    · subst hce
      have : strToLower "" = "" := rfl
      decide
    · have hne : (c != "") = true := by simp [hce]
      have hcont : validCategories.contains (strToLower c) = false := by
        simpa using hnot
      unfold normalizeCategory
      simp only [hne, if_true, hcont, Bool.false_eq_true, if_false]
      cases hw : strIncludes (strToLower c) "work" <;>
        cases hi : strIncludes (strToLower c) "intern" <;>
          simp [hw, hi]

/-- Witness for C5: the out-of-enum category `"Work History"` decodes to
`experience`. -/
theorem claim5_witness :
    (decodeResumeIngredient "id1" ⟨some "X", some "Work History", none⟩).category =
      "experience" :=
  (((claim5_category_normalization "id1"
      ⟨some "X", some "Work History", none⟩).2) "Work History" rfl
      (by decide)).trans (by decide)

/-! ## Match-analysis decoder (`analyzeDish`, geminiService.ts)

`analyzeDish` ends with `const text = response.text; if (!text) throw ...;
return JSON.parse(text) as DishAnalysis;` — the cast performs no validation
and no defaulting, so the decoded value is exactly the parse result, whose
fields may individually be absent. -/

/-- The `JSON.parse` result of an analysis response, before the unchecked
`as DishAnalysis` cast: each schema field may be absent. -/
structure RawDishAnalysis where
  matchScore : Option ℚ
  missingIngredients : Option (List String)
  tasteProfile : Option String
  chefTips : Option (List String)
  companyName : Option String
deriving DecidableEq, Repr

/-- The message of the `SyntaxError` that `JSON.parse` throws on malformed
text (uncaught in `analyzeDish`). -/
def jsonParseErrorMessage : String := "Unexpected token in JSON"

/-- The decode tail of `analyzeDish`: empty text throws, a parse failure
throws, and a parse success is returned unchanged (the `as DishAnalysis`
cast adds nothing). -/
def analyzeDishDecode (text : String) (parsed : Option RawDishAnalysis) :
    Except String RawDishAnalysis :=
  if text == "" then .error "No analysis returned from the Chef."
  else
    match parsed with
    | none => .error jsonParseErrorMessage
    | some r => .ok r

/-- A parse result in which both list fields and the score are absent. -/
def rawAnalysisMissingFields : RawDishAnalysis :=
  ⟨none, none, some "fits well", none, some "Acme Corp"⟩

/-- **C8, counterexample.** The claim says every successfully decoded
MatchAnalysis has a present numeric score and that absent list fields are
replaced by empty lists.  At this concrete parse result (valid JSON lacking
`matchScore`, `missingIngredients` and `chefTips`) the decode succeeds and
returns the record unchanged: the score is absent and the list fields are
absent — not empty lists. -/
theorem claim8_counterexample :
    analyzeDishDecode "sometext" (some rawAnalysisMissingFields) =
        .ok rawAnalysisMissingFields ∧
      rawAnalysisMissingFields.matchScore = none ∧
      rawAnalysisMissingFields.missingIngredients = none ∧
      rawAnalysisMissingFields.missingIngredients ≠ some [] ∧
      rawAnalysisMissingFields.chefTips ≠ some [] :=
  ⟨rfl, rfl, rfl, by decide, by decide⟩

/-- **C8, amended.** A successful match-analysis decode returns the
`JSON.parse` result unchanged: no field is validated or defaulted — an
absent score stays absent and an absent list field stays absent rather than
becoming an empty list (field presence is constrained only upstream, by the
backend-side response schema marking every field required).  The decoder's
only failures are empty response text and JSON parse failure. -/
theorem claim8_decode_no_defaulting (text : String) (r : RawDishAnalysis)
    (h : text ≠ "") :
    ∃ out, analyzeDishDecode text (some r) = .ok out ∧
      out.matchScore = r.matchScore ∧
      out.missingIngredients = r.missingIngredients ∧
      out.chefTips = r.chefTips := by
  refine ⟨r, ?_, rfl, rfl, rfl⟩
  unfold analyzeDishDecode
  simp [h]

/-- Witness for the amended C8 at a concrete parse result. -/
theorem claim8_witness :
    ∃ out, analyzeDishDecode "sometext" (some rawAnalysisMissingFields) = .ok out ∧
      out.matchScore = rawAnalysisMissingFields.matchScore ∧
      out.missingIngredients = rawAnalysisMissingFields.missingIngredients ∧
      out.chefTips = rawAnalysisMissingFields.chefTips :=
  claim8_decode_no_defaulting "sometext" rawAnalysisMissingFields (by decide)

/-! ## Refinement decoder (`refineDescription`, geminiService.ts) -/

/-- The `JSON.parse` result of a refinement response: the `variations` key
may be absent. -/
structure RawRefinement where
  variations : Option (List String)
deriving DecidableEq, Repr

/-- The decode tail of `refineDescription`: empty text yields a one-element
fallback list, a parse failure a one-element error list, and a parse success
returns `json.variations` as-is (`none` models the JS `undefined` produced
when the key is absent).  No count check is performed. -/
def refineDecode (text : String) (parsed : Option RawRefinement) :
    Option (List String) :=
  if text == "" then some ["Could not generate variations."]
  else
    match parsed with
    | none => some ["Error parsing improvements."]
    | some r => r.variations

/-- **C9, counterexample.** The claim says every successfully parsed
refinement result contains exactly three phrasings.  A response parsing to
`variations = ["a", "b"]` decodes successfully to that two-element list. -/
theorem claim9_counterexample :
    refineDecode "sometext" (some ⟨some ["a", "b"]⟩) = some ["a", "b"] ∧
      (["a", "b"] : List String).length ≠ 3 :=
  ⟨rfl, by decide⟩

/-- **C9, amended.** For every text-refinement call whose backend response
parses successfully, the returned list is the parsed `variations` array
unchanged, whatever its length — three elements are requested by prompt and
schema but not enforced by the decoder; empty response text and parse
failure each yield a fixed one-element fallback list instead. -/
theorem claim9_variations_passthrough (text : String) (vs : List String)
    (h : text ≠ "") :
    refineDecode text (some ⟨some vs⟩) = some vs := by
  unfold refineDecode
  simp [h]

/-- Witness for the amended C9 at a two-element parse result. -/
theorem claim9_witness :
    refineDecode "sometext" (some ⟨some ["a", "b"]⟩) = some ["a", "b"] :=
  claim9_variations_passthrough "sometext" ["a", "b"] (by decide)

/-! ## Interview state machine (`TasteTest.tsx`)

The interview history lives in `ChefState.interviewHistory`; `startInterview`
and `handleAudioSubmission` are embedded as pure functions of the state slice
and the settled outcomes of the backend calls they await.  `Date.now()` is
modelled as a strictly monotone counter `now` (successive timestamp reads
across await points yield fresh, increasing values). -/

inductive Role where
  | chef
  | candidate
deriving DecidableEq, Repr

/-- `InterviewMessage` (types.ts); `id` holds the numeric timestamp behind
`Date.now().toString()`. -/
structure InterviewMessage where
  id : Nat
  role : Role
  content : String
  feedback : Option String
  score : Option ℚ
deriving DecidableEq, Repr

/-- The slice of `ChefState` that the TasteTest handlers read and write,
plus the timestamp counter. -/
structure TTState where
  ingredients : List Ingredient
  currentRecipe : String
  interviewHistory : List InterviewMessage
  now : Nat
deriving DecidableEq, Repr

/-- `startInterview` (TasteTest.tsx): precondition check, clear the history,
await the opening question (`qRes`), then append the interviewer turn; on
failure the history stays cleared and an error toast is shown. -/
def startInterview (st : TTState) (qRes : Except String String) :
    TTState × List Toast :=
  if st.currentRecipe == "" || st.ingredients.isEmpty then
    (st, [Toast.mk .error "Please add ingredients and a job description first!"])
  else
    let cleared := { st with interviewHistory := [] }
    match qRes with
    | .ok question =>
      ({ cleared with
          interviewHistory := [⟨st.now, .chef, question, none, none⟩]
          now := st.now + 1 }, [])
    | .error _ => (cleared, [Toast.mk .error "Failed to start the interview."])

/-- The parsed result of `evaluateAudioAnswer`. -/
structure EvalResult where
  feedback : String
  score : ℚ
  transcription : String
deriving DecidableEq, Repr

/-- `handleAudioSubmission` (TasteTest.tsx), successful-file-read path:
append a provisional candidate turn (placeholder content), read the last
turn's content as the question, await the evaluation (`evalRes`), amend the
candidate turn in place by id (transcription replacing the placeholder via
`evaluation.transcription || "(Audio transcription failed)"`, feedback and
score attached), then await the next question (`nextQRes`) and append it.
Returns `none` when the history is empty (the source indexes
`interviewHistory[length - 1]` unconditionally and would throw).  A rejected
evaluation or question fetch happens inside the `reader.onloadend` callback,
outside the surrounding `try`, so it leaves the history as already written. -/
def handleAudioSubmission (st : TTState) (evalRes : Except String EvalResult)
    (nextQRes : Except String String) : Option (TTState × List Toast) :=
  let toasts := [Toast.mk .info "Analyzing your answer..."]
  match st.interviewHistory.getLast? with
  | none => none
  | some _lastQuestionMsg =>
    let userMsgId := st.now
    let userMsg : InterviewMessage := ⟨userMsgId, .candidate, "(Audio Answer Submitted)", none, none⟩
    let currentHistory := st.interviewHistory ++ [userMsg]
    match evalRes with
    | .error _ =>
      some ({ st with interviewHistory := currentHistory, now := st.now + 1 }, toasts)
    | .ok ev =>
      let historyWithFeedback := currentHistory.map fun m =>
        if m.id == userMsgId then
          { m with
              content := strOr (some ev.transcription) "(Audio transcription failed)"
              feedback := some ev.feedback
              score := some ev.score }
        else m
      match nextQRes with
      | .error _ =>
        some ({ st with interviewHistory := historyWithFeedback, now := st.now + 1 }, toasts)
      | .ok nextQ =>
        some ({ st with
                 interviewHistory :=
                   historyWithFeedback ++ [⟨st.now + 2, .chef, nextQ, none, none⟩]
                 now := st.now + 3 }, toasts)

/-- The Restart button (TasteTest.tsx) stops the media stream and re-invokes
`startInterview`; the media stream is outside the core model. -/
def restartInterview (st : TTState) (qRes : Except String String) :
    TTState × List Toast :=
  startInterview st qRes

/-- **C6.** Starting from Idle (under the start precondition), submitting one
answer and receiving its evaluation (with the next question fetched) yields
a history of exactly 3 turns in order [interviewer, candidate, interviewer];
the candidate turn's content is the evaluation's transcription — the
provisional placeholder is replaced — and carries the evaluation's feedback
and score. -/
theorem claim6_interview_cycle (st : TTState) (q : String) (ev : EvalResult)
    (q2 : String) (hrecipe : st.currentRecipe ≠ "") (hingr : st.ingredients ≠ [])
    (htr : ev.transcription ≠ "") :
    ∃ st2 toasts,
      handleAudioSubmission (startInterview st (.ok q)).1 (.ok ev) (.ok q2) =
          some (st2, toasts) ∧
        st2.interviewHistory.map InterviewMessage.role = [.chef, .candidate, .chef] ∧
        st2.interviewHistory.map InterviewMessage.content = [q, ev.transcription, q2] ∧
        st2.interviewHistory.map (fun m => (m.feedback, m.score)) =
          [(none, none), (some ev.feedback, some ev.score), (none, none)] := by
  have hpre : (st.currentRecipe == "" || st.ingredients.isEmpty) = false := by
    simp [hrecipe, List.isEmpty_iff, hingr]
  have hid : (st.now == st.now + 1) = false := by
    simp only [beq_eq_false_iff_ne, ne_eq]
    omega
  have htr' : (ev.transcription != "") = true := by simpa using htr
  have hstart : startInterview st (.ok q) =
      ({ st with
          interviewHistory := [⟨st.now, .chef, q, none, none⟩]
          now := st.now + 1 }, []) := by
    unfold startInterview
    simp [hpre]
  have hsub : handleAudioSubmission
      { st with
          interviewHistory := [⟨st.now, .chef, q, none, none⟩]
          now := st.now + 1 } (.ok ev) (.ok q2) =
      some (⟨st.ingredients, st.currentRecipe,
        [⟨st.now, .chef, q, none, none⟩,
          ⟨st.now + 1, .candidate, ev.transcription, some ev.feedback, some ev.score⟩,
          ⟨st.now + 1 + 2, .chef, q2, none, none⟩], st.now + 1 + 3⟩,
        [Toast.mk .info "Analyzing your answer..."]) := by
    unfold handleAudioSubmission
    simp [List.getLast?, hid, strOr, htr']
  rw [hstart]
  refine ⟨_, _, hsub, by simp, by simp, by simp⟩

/-- Witness for C6 at a concrete session. -/
theorem claim6_witness :
    ∃ st2 toasts,
      handleAudioSubmission
          (startInterview ⟨[⟨"1", "Python", "skill", some ""⟩], "Some job", [], 10⟩
            (.ok "Tell me about yourself.")).1
          (.ok ⟨"Good structure.", 8, "I built pipelines."⟩) (.ok "Why us?") =
          some (st2, toasts) ∧
        st2.interviewHistory.map InterviewMessage.role = [.chef, .candidate, .chef] ∧
        st2.interviewHistory.map InterviewMessage.content =
          ["Tell me about yourself.", "I built pipelines.", "Why us?"] ∧
        st2.interviewHistory.map (fun m => (m.feedback, m.score)) =
          [(none, none), (some "Good structure.", some 8), (none, none)] :=
  claim6_interview_cycle ⟨[⟨"1", "Python", "skill", some ""⟩], "Some job", [], 10⟩
    "Tell me about yourself." ⟨"Good structure.", 8, "I built pipelines."⟩ "Why us?"
    (by decide) (by decide) (by decide)

/-- A non-Idle interview state whose job description has been cleared. -/
def c7State : TTState :=
  ⟨[⟨"1", "Python", "skill", some ""⟩], "",
    [⟨0, .chef, "Tell me about yourself.", none, none⟩], 5⟩

/-- **C7, counterexample.** The claim says restart from every non-Idle state
yields an empty history and state Idle.  At this concrete non-Idle state
(one interviewer turn in the history, job description cleared) the Restart
control — which re-invokes `startInterview` — hits the precondition guard
and leaves the history unchanged and non-empty. -/
theorem claim7_counterexample :
    c7State.interviewHistory ≠ [] ∧
      (restartInterview c7State (.ok "Next question")).1.interviewHistory =
        c7State.interviewHistory ∧
      (restartInterview c7State (.ok "Next question")).1.interviewHistory ≠ [] :=
  ⟨by decide, rfl, by decide⟩

/-- **C7, amended.** Restart re-runs the interview-start flow rather than
moving to Idle: from any non-Idle state, when the job description is empty
or the ingredient list is empty the history is left unchanged (only an error
notification is shown); otherwise the history is first replaced by the empty
sequence and a new session starts immediately — the settled history is a
fresh single interviewer turn on question-fetch success, and empty on fetch
failure. -/
theorem claim7_restart_behavior (st : TTState) (qRes : Except String String)
    (_hne : st.interviewHistory ≠ []) :
    (restartInterview st qRes).1.interviewHistory =
      if st.currentRecipe = "" ∨ st.ingredients = [] then st.interviewHistory
      else
        match qRes with
        | .ok q => [⟨st.now, .chef, q, none, none⟩]
        | .error _ => [] := by
  unfold restartInterview startInterview
  by_cases h : st.currentRecipe = "" ∨ st.ingredients = []
  · simp only [if_pos h]
    rcases h with h | h <;> simp [h]
  · push_neg at h
    cases qRes <;> simp [h.1, h.2]

/-- Witness for the amended C7 at a concrete non-Idle state with the
precondition satisfied. -/
theorem claim7_witness :
    (restartInterview
        ⟨[⟨"1", "Python", "skill", some ""⟩], "Some job",
          [⟨0, .chef, "Old question", none, none⟩], 7⟩
        (.ok "Fresh question")).1.interviewHistory =
      [⟨7, .chef, "Fresh question", none, none⟩] :=
  (claim7_restart_behavior
      ⟨[⟨"1", "Python", "skill", some ""⟩], "Some job",
        [⟨0, .chef, "Old question", none, none⟩], 7⟩
      (.ok "Fresh question") (by decide)).trans (by decide)

/-! ## Ingredient persistence round-trip (`App.tsx`)

`App.tsx` persists `JSON.stringify(chefState.ingredients)` and restores with
`JSON.parse(savedIngredients)` (no validation — the parsed value is cast to
`Ingredient[]`).  The serializer below is `JSON.stringify` on an array of
flat string-field objects (keys in `types.ts` declaration order, `details`
omitted when absent, standard JSON string escaping, no whitespace); the
parser is `JSON.parse` restricted to exactly that grammar — outside it the
model answers `none`, where `JSON.parse` would throw or produce a value
outside the `Ingredient[]` shape — followed by the cast's field reads. -/

/-- Lower-case hex digit, as `JSON.stringify` emits in `\u00XX` escapes. -/
def hexDigitChar (n : Nat) : Char :=
  if n < 10 then Char.ofNat (48 + n) else Char.ofNat (87 + n)

/-- Numeric value of a hex digit (`JSON.parse` accepts either case). -/
def hexVal (c : Char) : Option Nat :=
  if '0' ≤ c ∧ c ≤ '9' then some (c.toNat - 48)
  else if 'a' ≤ c ∧ c ≤ 'f' then some (c.toNat - 87)
  else if 'A' ≤ c ∧ c ≤ 'F' then some (c.toNat - 55)
  else none

/-- `JSON.stringify` escaping of one character inside a string literal:
quote and backslash escaped, the named control escapes, `\u00XX` for the
remaining control characters, everything else verbatim. -/
def escChar (c : Char) : List Char :=
  if c = '"' then ['\\', '"']
  else if c = '\\' then ['\\', '\\']
  else if c = '\x08' then ['\\', 'b']
  else if c = '\x09' then ['\\', 't']
  else if c = '\x0a' then ['\\', 'n']
  else if c = '\x0c' then ['\\', 'f']
  else if c = '\x0d' then ['\\', 'r']
  else if c.toNat < 32 then
    ['\\', 'u', '0', '0', hexDigitChar (c.toNat / 16), hexDigitChar (c.toNat % 16)]
  else [c]

/-- A quoted JSON string literal for `s`. -/
def printJString (s : String) : List Char :=
  '"' :: s.data.flatMap escChar ++ ['"']

/-- The character denoted by a single-character escape (`JSON.parse`). -/
def unescapeChar : Char → Option Char
  | '"' => some '"'
  | '\\' => some '\\'
  | '/' => some '/'
  | 'b' => some '\x08'
  | 't' => some '\x09'
  | 'n' => some '\x0a'
  | 'f' => some '\x0c'
  | 'r' => some '\x0d'
  | _ => none

/-- Parse the body of a JSON string literal (after the opening quote) up to
its closing quote; returns the unescaped characters and the remaining
input. -/
def parseJStringAux : List Char → Option (List Char × List Char)
  | [] => none
  | c :: rest =>
    if c = '"' then some ([], rest)
    else if c = '\\' then
      match rest with
      | [] => none
      | e :: rest2 =>
        if e = 'u' then
          match rest2 with
          | h1 :: h2 :: h3 :: h4 :: rest3 =>
            (match hexVal h1, hexVal h2, hexVal h3, hexVal h4 with
             | some a, some b, some hc, some d =>
               (parseJStringAux rest3).map fun p =>
                 (Char.ofNat (((a * 16 + b) * 16 + hc) * 16 + d) :: p.1, p.2)
             | _, _, _, _ => none)
          | _ => none
        else
          match unescapeChar e with
          | some uc => (parseJStringAux rest2).map fun p => (uc :: p.1, p.2)
          | none => none
    else (parseJStringAux rest).map fun p => (c :: p.1, p.2)

/-- Parse a whole JSON string literal, opening quote included. -/
def parseJString (input : List Char) : Option (String × List Char) :=
  match input with
  | '"' :: rest => (parseJStringAux rest).map fun p => (String.mk p.1, p.2)
  | _ => none

/-- `"key":"value"` — one object member, both sides strings. -/
def printPair (p : String × String) : List Char :=
  printJString p.1 ++ ':' :: printJString p.2

/-- Comma-separated concatenation (no trailing separator). -/
def sepByComma : List (List Char) → List Char
  | [] => []
  | [x] => x
  | x :: y :: rest => x ++ ',' :: sepByComma (y :: rest)

/-- The members `JSON.stringify` emits for one Ingredient, in `types.ts`
declaration order; an absent `details` contributes no member. -/
def pairsOfIngredient (i : Ingredient) : List (String × String) :=
  ("id", i.id) :: ("name", i.name) :: ("category", i.category) ::
    (match i.details with
     | none => []
     | some d => [("details", d)])

/-- A flat string-field JSON object. -/
def printObject (ps : List (String × String)) : List Char :=
  '\x7b' :: sepByComma (ps.map printPair) ++ ['\x7d']

/-- `JSON.stringify(ingredients)`. -/
def printIngredientList (l : List Ingredient) : List Char :=
  '[' :: sepByComma (l.map fun i => printObject (pairsOfIngredient i)) ++ [']']

/-- The persisted string for an Ingredient list. -/
def saveIngredients (l : List Ingredient) : String :=
  String.mk (printIngredientList l)

/-- Consume one expected character. -/
def expectChar (c : Char) : List Char → Option (List Char)
  | [] => none
  | x :: r => if x = c then some r else none

/-- Parse the members of an object (after the opening brace) up to its
closing brace; at least one member is required (the emitted objects always
have one).  Fuel bounds the number of members. -/
def parsePairs : Nat → List Char → Option (List (String × String) × List Char)
  | 0, _ => none
  | fuel + 1, input =>
    (parseJString input).bind fun kr =>
    (expectChar ':' kr.2).bind fun r2 =>
    (parseJString r2).bind fun vr =>
    match vr.2 with
    | [] => none
    | c :: r4 =>
      if c = ',' then (parsePairs fuel r4).map fun p => ((kr.1, vr.1) :: p.1, p.2)
      else if c = '\x7d' then some ([(kr.1, vr.1)], r4)
      else none

/-- Parse the elements of a non-empty array of flat objects (after the
opening bracket) up to the closing bracket.  Fuel bounds the number of
elements. -/
def parseItems : Nat → List Char → Option (List (List (String × String)) × List Char)
  | 0, _ => none
  | fuel + 1, input =>
    (expectChar '\x7b' input).bind fun rest =>
    (parsePairs (rest.length + 1) rest).bind fun psr =>
    match psr.2 with
    | [] => none
    | c :: r2 =>
      if c = ',' then (parseItems fuel r2).map fun p => (psr.1 :: p.1, p.2)
      else if c = ']' then some ([psr.1], r2)
      else none

/-- `JSON.parse` restricted to the emitted grammar: an array of flat
string-field objects consuming the entire input. -/
def parseIngredientArray (input : List Char) : Option (List (List (String × String))) :=
  match input with
  | [] => none
  | c :: rest =>
    if c = '[' then
      if rest = [']'] then some []
      else
        (parseItems (rest.length + 1) rest).bind fun psr =>
          if psr.2 = [] then some psr.1 else none
    else none

/-- The `Ingredient[]` cast's field reads on one parsed object: the three
mandatory fields must be present (an absent one would surface as
`undefined` in a supposedly-string field), `details` stays optional. -/
def ingredientOfPairs (ps : List (String × String)) : Option Ingredient :=
  match ps.lookup "id", ps.lookup "name", ps.lookup "category" with
  | some id, some name, some cat => some ⟨id, name, cat, ps.lookup "details"⟩
  | _, _, _ => none

/-- Restore an Ingredient list from its persisted string. -/
def loadIngredients (s : String) : Option (List Ingredient) :=
  (parseIngredientArray s.data).bind fun objs => objs.mapM ingredientOfPairs

example :
    loadIngredients (saveIngredients
      [⟨"1", "Py\"thon\n", "skill", some "a\\b"⟩, ⟨"2", "SQL", "skill", none⟩]) =
    some [⟨"1", "Py\"thon\n", "skill", some "a\\b"⟩, ⟨"2", "SQL", "skill", none⟩] := by
  decide

example : loadIngredients (saveIngredients []) = some [] := by decide

example :
    loadIngredients (saveIngredients [⟨"1", "tab\there\x01", "skill", some ""⟩]) =
    some [⟨"1", "tab\there\x01", "skill", some ""⟩] := by decide

theorem hexVal_hexDigitChar (n : Nat) (h : n < 16) :
    hexVal (hexDigitChar n) = some n := by
  interval_cases n <;> decide

/-- Parsing the escape of one character prepends that character. -/
theorem parseJStringAux_escChar (c : Char) (tail : List Char) :
    parseJStringAux (escChar c ++ tail) =
      (parseJStringAux tail).map fun p => (c :: p.1, p.2) := by
  unfold escChar
  split_ifs with h1 h2 h3 h4 h5 h6 h7 h8
  · subst h1; rw [parseJStringAux.eq_def]; simp [unescapeChar]
  · subst h2; rw [parseJStringAux.eq_def]; simp [unescapeChar]
  · subst h3; rw [parseJStringAux.eq_def]; simp [unescapeChar]
  · subst h4; rw [parseJStringAux.eq_def]; simp [unescapeChar]
  · subst h5; rw [parseJStringAux.eq_def]; simp [unescapeChar]
  · subst h6; rw [parseJStringAux.eq_def]; simp [unescapeChar]
  · subst h7; rw [parseJStringAux.eq_def]; simp [unescapeChar]
  · -- the `\u00XX` escape for the remaining control characters
    have h0 : hexVal '0' = some 0 := rfl
    have hv3 : hexVal (hexDigitChar (c.toNat / 16)) = some (c.toNat / 16) :=
      hexVal_hexDigitChar _ (by omega)
    have hv4 : hexVal (hexDigitChar (c.toNat % 16)) = some (c.toNat % 16) :=
      hexVal_hexDigitChar _ (by omega)
    rw [parseJStringAux.eq_def]
    simp only [List.cons_append, List.nil_append, h0, hv3, hv4]
    norm_num
    rw [show c.toNat / 16 * 16 + c.toNat % 16 = c.toNat from by omega,
      Char.ofNat_toNat]
    rw [if_neg (by decide)]
  · -- ordinary character, emitted verbatim
    rw [parseJStringAux.eq_def]
    simp [h1, h2]

/-- Parsing the escaped body of `s` followed by the closing quote recovers
`s.data`. -/
theorem parseJStringAux_flatMap (s : List Char) (tail : List Char) :
    parseJStringAux (s.flatMap escChar ++ '"' :: tail) = some (s, tail) := by
  induction s with
  | nil =>
    show parseJStringAux ([] ++ '"' :: tail) = some ([], tail)
    rw [List.nil_append, parseJStringAux.eq_def]
    simp
  | cons c cs ih =>
    rw [List.flatMap_cons, List.append_assoc, parseJStringAux_escChar, ih]
    rfl

/-- The printed string literal parses back to the string. -/
theorem parseJString_print (s : String) (tail : List Char) :
    parseJString (printJString s ++ tail) = some (s, tail) := by
  have harg : printJString s ++ tail
      = '"' :: (s.data.flatMap escChar ++ '"' :: tail) := by
    simp [printJString]
  rw [harg, parseJString.eq_def]
  simp [parseJStringAux_flatMap]

/-- `sepByComma` shrinks the element count by at most the separators. -/
theorem sepByComma_length (xs : List (List Char)) :
    xs.length ≤ (sepByComma xs).length + 1 := by
  induction xs with
  | nil => simp [sepByComma]
  | cons x ys ih =>
    cases ys with
    | nil => simp [sepByComma]
    | cons y r =>
      simp only [sepByComma, List.length_append, List.length_cons] at *
      omega

/-- `sepByComma` of a non-empty list starts with its first element. -/
theorem sepByComma_cons (x : List Char) (xs : List (List Char)) :
    ∃ u, sepByComma (x :: xs) = x ++ u := by
  cases xs with
  | nil => exact ⟨[], by simp [sepByComma]⟩
  | cons y r => exact ⟨',' :: sepByComma (y :: r), rfl⟩

theorem expectChar_cons_self (c : Char) (r : List Char) :
    expectChar c (c :: r) = some r := by
  simp [expectChar]

theorem parsePairs_succ (fuel : Nat) (input : List Char) :
    parsePairs (fuel + 1) input =
      ((parseJString input).bind fun kr =>
      (expectChar ':' kr.2).bind fun r2 =>
      (parseJString r2).bind fun vr =>
      match vr.2 with
      | [] => none
      | c :: r4 =>
        if c = ',' then (parsePairs fuel r4).map fun p => ((kr.1, vr.1) :: p.1, p.2)
        else if c = '\x7d' then some ([(kr.1, vr.1)], r4)
        else none) := rfl

theorem parseItems_succ (fuel : Nat) (input : List Char) :
    parseItems (fuel + 1) input =
      ((expectChar '\x7b' input).bind fun rest =>
      (parsePairs (rest.length + 1) rest).bind fun psr =>
      match psr.2 with
      | [] => none
      | c :: r2 =>
        if c = ',' then (parseItems fuel r2).map fun p => (psr.1 :: p.1, p.2)
        else if c = ']' then some ([psr.1], r2)
        else none) := rfl

/-- A printed member list parses back (with the closing brace and beyond as
remainder). -/
theorem parsePairs_print (ps : List (String × String)) :
    ∀ (fuel : Nat) (tail : List Char), ps ≠ [] → ps.length ≤ fuel →
      parsePairs fuel (sepByComma (ps.map printPair) ++ '\x7d' :: tail) =
        some (ps, tail) := by
  induction ps with
  | nil => exact fun _ _ h _ => absurd rfl h
  | cons p ps' ih =>
    intro fuel tail _ hlen
    obtain ⟨f, rfl⟩ : ∃ f, fuel = f + 1 :=
      ⟨fuel - 1, by simp at hlen; omega⟩
    cases ps' with
    | nil =>
      have harg : sepByComma ([p].map printPair) ++ '\x7d' :: tail
          = printJString p.1 ++ ':' :: (printJString p.2 ++ '\x7d' :: tail) := by
        simp [sepByComma, printPair]
      rw [harg, parsePairs_succ]
      simp only [parseJString_print, Option.some_bind, expectChar_cons_self]
      rfl
    | cons q rest' =>
      have harg : sepByComma ((p :: q :: rest').map printPair) ++ '\x7d' :: tail
          = printJString p.1 ++ ':' :: (printJString p.2 ++
              ',' :: (sepByComma ((q :: rest').map printPair) ++ '\x7d' :: tail)) := by
        simp [sepByComma, printPair]
      rw [harg, parsePairs_succ]
      simp only [parseJString_print, Option.some_bind, expectChar_cons_self]
      rw [if_pos trivial, ih f _ (by simp) (by simp at hlen ⊢; omega)]
      rfl

/-- A printed non-empty object array parses back (with the closing bracket
and beyond as remainder). -/
theorem parseItems_print (objs : List (List (String × String))) :
    ∀ (fuel : Nat) (tail : List Char), objs ≠ [] → (∀ ps ∈ objs, ps ≠ []) →
      objs.length ≤ fuel →
      parseItems fuel (sepByComma (objs.map printObject) ++ ']' :: tail) =
        some (objs, tail) := by
  induction objs with
  | nil => exact fun _ _ h _ _ => absurd rfl h
  | cons o objs' ih =>
    intro fuel tail _ hne hlen
    obtain ⟨f, rfl⟩ : ∃ f, fuel = f + 1 :=
      ⟨fuel - 1, by simp at hlen; omega⟩
    have hone : o ≠ [] := hne o (by simp)
    cases objs' with
    | nil =>
      have harg : sepByComma ([o].map printObject) ++ ']' :: tail
          = '\x7b' :: (sepByComma (o.map printPair) ++ '\x7d' :: (']' :: tail)) := by
        simp [sepByComma, printObject]
      have hfuel : o.length ≤ (sepByComma (o.map printPair)
          ++ '\x7d' :: (']' :: tail)).length + 1 := by
        have := sepByComma_length (o.map printPair)
        simp at this ⊢
        omega
      rw [harg, parseItems_succ]
      simp only [expectChar_cons_self, Option.some_bind]
      rw [parsePairs_print o _ _ hone hfuel]
      rfl
    | cons o2 rest' =>
      have harg : sepByComma ((o :: o2 :: rest').map printObject) ++ ']' :: tail
          = '\x7b' :: (sepByComma (o.map printPair) ++ '\x7d' ::
              (',' :: (sepByComma ((o2 :: rest').map printObject) ++ ']' :: tail))) := by
        simp [sepByComma, printObject]
      have hfuel : o.length ≤ (sepByComma (o.map printPair) ++ '\x7d' ::
          (',' :: (sepByComma ((o2 :: rest').map printObject)
            ++ ']' :: tail))).length + 1 := by
        have := sepByComma_length (o.map printPair)
        simp at this ⊢
        omega
      rw [harg, parseItems_succ]
      simp only [expectChar_cons_self, Option.some_bind]
      rw [parsePairs_print o _ _ hone hfuel]
      simp only [Option.some_bind]
      rw [if_pos trivial, ih f _ (by simp) (fun ps hps => hne ps (by simp [hps]))
        (by simp at hlen ⊢; omega)]
      rfl

/-- The members emitted for an Ingredient decode back to it. -/
theorem ingredientOfPairs_pairsOf (i : Ingredient) :
    ingredientOfPairs (pairsOfIngredient i) = some i := by
  obtain ⟨a, b, c, d⟩ := i
  cases d <;> rfl

theorem pairsOfIngredient_ne_nil (i : Ingredient) :
    pairsOfIngredient i ≠ [] := by
  cases hd : i.details <;> simp [pairsOfIngredient, hd]

theorem mapM_ingredientOfPairs (l : List Ingredient) :
    (l.map pairsOfIngredient).mapM ingredientOfPairs = some l := by
  induction l with
  | nil => rfl
  | cons i r ih =>
    simp only [List.map_cons, List.mapM_cons, ingredientOfPairs_pairsOf, ih]
    rfl

/-- **C10.** For every Ingredient list, serializing it for persistence
(`JSON.stringify`) and deserializing it back (`JSON.parse` plus the
`Ingredient[]` cast's field reads) yields a list equal to the original in
every field of every Ingredient, including `id`, in the same order. -/
theorem claim10_round_trip (l : List Ingredient) :
    loadIngredients (saveIngredients l) = some l := by
  cases l with
  | nil => decide
  | cons i rest =>
    show (parseIngredientArray (printIngredientList (i :: rest))).bind
        (fun objs => objs.mapM ingredientOfPairs) = some (i :: rest)
    have hmap : (i :: rest).map (fun j => printObject (pairsOfIngredient j))
        = ((i :: rest).map pairsOfIngredient).map printObject := by
      rw [List.map_map]
      rfl
    obtain ⟨u, hu⟩ :=
      sepByComma_cons (printObject (pairsOfIngredient i))
        ((rest.map pairsOfIngredient).map printObject)
    have hbody : sepByComma (((i :: rest).map pairsOfIngredient).map printObject)
        = '\x7b' :: (sepByComma (pairsOfIngredient i |>.map printPair) ++ '\x7d' :: u) := by
      simp only [List.map_cons] at hu ⊢
      rw [hu]
      simp [printObject]
    have harr : printIngredientList (i :: rest)
        = '[' :: ('\x7b' :: ((sepByComma (pairsOfIngredient i |>.map printPair)
            ++ '\x7d' :: u) ++ [']'])) := by
      unfold printIngredientList
      rw [hmap, hbody]
      simp
    have hnotempty : ('\x7b' :: ((sepByComma (pairsOfIngredient i |>.map printPair)
        ++ '\x7d' :: u) ++ [']'])) ≠ [']'] := by
      intro h
      exact absurd (congrArg List.head? h) (by simp)
    have hitems : parseItems
        (('\x7b' :: ((sepByComma (pairsOfIngredient i |>.map printPair)
            ++ '\x7d' :: u) ++ [']'])).length + 1)
        ('\x7b' :: ((sepByComma (pairsOfIngredient i |>.map printPair)
            ++ '\x7d' :: u) ++ [']'])) =
        some ((i :: rest).map pairsOfIngredient, []) := by
      have hshape : ('\x7b' :: ((sepByComma (pairsOfIngredient i |>.map printPair)
            ++ '\x7d' :: u) ++ [']']))
          = sepByComma (((i :: rest).map pairsOfIngredient).map printObject)
              ++ ']' :: [] := by
        rw [hbody]
        simp
      rw [hshape]
      refine parseItems_print _ _ _ (by simp) ?_ ?_
      · intro ps hps
        obtain ⟨j, _, rfl⟩ := List.mem_map.mp hps
        exact pairsOfIngredient_ne_nil j
      · calc ((i :: rest).map pairsOfIngredient).length
            ≤ (sepByComma (((i :: rest).map pairsOfIngredient).map printObject)).length
                + 1 := by
              simpa using
                sepByComma_length (((i :: rest).map pairsOfIngredient).map printObject)
          _ ≤ _ := by
              rw [hbody]
              simp
    rw [harr, parseIngredientArray]
    simp only [reduceIte, if_neg hnotempty, hitems, Option.some_bind]
    exact mapM_ingredientOfPairs (i :: rest)

end JobCook
